import Mathlib

/-!
Verification of the cache-game core of `src/main.ts`.

The embedding models the TypeScript source directly:
* numbers that the source manipulates as JS floats (latitudes, oracle
  outputs, tile sizes) are modelled as rationals `ℚ`;
* grid indices produced by `Math.floor` are `Int`;
* the JS `Map<string, Cache>` is an association list with `Map`
  semantics: `get?` finds the first (unique) matching key, `set`
  replaces in place or appends;
* the pseudorandom oracle `luck` (imported from `luck.ts`, pure and
  deterministic per the spec) is an explicit parameter
  `Oracle := String → ℚ`;
* rendering side effects (leaflet rectangles/popups) are dropped; the
  store/player state transitions are kept exactly.
-/

namespace Demo3

/-- The record `interface Coin { originI; originJ; serial }` of `main.ts`. -/
structure Coin where
  originI : Int
  originJ : Int
  serial : Nat
deriving DecidableEq, Repr

/-- The record `interface Cache { coins: Coin[]; pointValue: number }` of `main.ts`. -/
structure Cache where
  coins : List Coin
  pointValue : Int
deriving DecidableEq, Repr

/-- The constant `TILE_DEGREES = 1e-4` (written with `mkRat` so that it
evaluates by kernel reduction; see `TILE_DEGREES_eq`). -/
def TILE_DEGREES : ℚ := mkRat 1 10000

/-- The constant `NEIGHBORHOOD_SIZE = 8`. -/
def NEIGHBORHOOD_SIZE : Nat := 8

/-- The constant `CACHE_SPAWN_PROBABILITY = 0.1` (written with `mkRat`; see
`CACHE_SPAWN_PROBABILITY_eq`). -/
def CACHE_SPAWN_PROBABILITY : ℚ := mkRat 1 10

/-- The oracle `luck : string → number in [0,1)` consumed from `luck.ts`. -/
abbrev Oracle := String → ℚ

/-- Source `toGlobalCoords(lat, lng)`: `i = Math.floor(lat / TILE_DEGREES)`,
`j = Math.floor(lng / TILE_DEGREES)`. -/
def toGlobalCoords (lat lng : ℚ) : Int × Int :=
  (⌊lat / TILE_DEGREES⌋, ⌊lng / TILE_DEGREES⌋)

/-- The lat/lng that `centerOnCache(i, j)` computes for a cell:
`lat = i * TILE_DEGREES; lng = j * TILE_DEGREES` (the lower-left corner of the cell). -/
def centerOnCache (i j : Int) : ℚ × ℚ :=
  ((i : ℚ) * TILE_DEGREES, (j : ℚ) * TILE_DEGREES)

/-- The cell key `` `${globalI}:${globalJ}` ``. -/
def cellKey (i j : Int) : String :=
  toString i ++ ":" ++ toString j

/-- The oracle key `[i, j, salt].toString()`, which JS renders as
`"i,j,salt"`. -/
def luckKey (i j : Int) (salt : String) : String :=
  toString i ++ "," ++ toString j ++ "," ++ salt

/-- The cache store `cacheCells: Map<string, Cache>`, as an association
list in insertion order (a JS `Map` holds at most one entry per key and
preserves insertion order). -/
abbrev Store := List (String × Cache)

/-- JS `Map.get`: first (unique) entry with the given key. -/
def Store.get? (s : Store) (k : String) : Option Cache :=
  match s with
  | [] => none
  | p :: rest => if p.1 = k then some p.2 else Store.get? rest k

/-- JS `Map.has`. -/
def Store.hasKey (s : Store) (k : String) : Bool :=
  (Store.get? s k).isSome

/-- JS `Map.set`: replace the (unique) existing entry in place, else append. -/
def Store.set (s : Store) (k : String) (c : Cache) : Store :=
  match s with
  | [] => [(k, c)]
  | p :: rest => if p.1 = k then (k, c) :: rest else p :: Store.set rest k c

/-- Source `Math.floor(luck([i, j, "coins"].toString()) * 10 + 1)` of
`spawnCache`. -/
def cacheCoinCount (oracle : Oracle) (i j : Int) : Int :=
  ⌊oracle (luckKey i j ("coins")) * 10 + 1⌋

/-- Source `Math.floor(luck([i, j, "initialValue"].toString()) * 10 + 1)` of
`spawnCache`. -/
def cachePointValue (oracle : Oracle) (i j : Int) : Int :=
  ⌊oracle (luckKey i j ("initialValue")) * 10 + 1⌋

/-- Source `Array.from({length: n}, (_, index) => ({originI: i, originJ: j,
serial: index}))` of `spawnCache`. -/
def mkCoins (i j : Int) (n : Nat) : List Coin :=
  (List.range n).map (fun s => ⟨i, j, s⟩)

/-- The store effect of `spawnCache(globalI, globalJ)`: if the key is
absent, generate coin count and point value from the oracle and insert a
fresh cache; otherwise leave the store untouched (the function then only
renders the existing cache). -/
def spawnCache (oracle : Oracle) (store : Store) (i j : Int) : Store :=
  let k := cellKey i j
  if Store.hasKey store k then store
  else
    Store.set store k
      ⟨mkCoins i j (cacheCoinCount oracle i j).toNat, cachePointValue oracle i j⟩

/-- One iteration of the window loop in `renderCaches`: if the cell key is
already present, `spawnCache` (which just renders); otherwise consult the
`"seed"` oracle and spawn only below `CACHE_SPAWN_PROBABILITY`. -/
def renderCell (oracle : Oracle) (store : Store) (i j : Int) : Store :=
  if Store.hasKey store (cellKey i j) then
    spawnCache oracle store i j
  else if oracle (luckKey i j ("seed")) < CACHE_SPAWN_PROBABILITY then
    spawnCache oracle store i j
  else store

/-- The window offsets `-NEIGHBORHOOD_SIZE .. NEIGHBORHOOD_SIZE`. -/
def windowOffsets : List Int :=
  (List.range (2 * NEIGHBORHOOD_SIZE + 1)).map
    (fun k => (k : Int) - (NEIGHBORHOOD_SIZE : Int))

/-- The store effect of `renderCaches(centerI, centerJ)`: the nested
`latOffset`/`lngOffset` loops over the `(2N+1)×(2N+1)` window. (Removing
the leaflet rectangles and the final `saveCacheState()` call are handled
at the `GameState` level.) -/
def renderCaches (oracle : Oracle) (store : Store) (centerI centerJ : Int) : Store :=
  windowOffsets.foldl
    (fun st latOffset =>
      windowOffsets.foldl
        (fun st2 lngOffset =>
          renderCell oracle st2 (centerI + latOffset) (centerJ + lngOffset))
        st)
    store

/-- The mutable module-level game state of `main.ts`: the live store
`cacheCells`, the `savedState` of the memento (viewed by content), the
player inventory/points and position. -/
structure GameState where
  store : Store
  saved : Store
  playerCoins : List Coin
  playerPoints : Int
  playerLat : ℚ
  playerLng : ℚ
deriving DecidableEq, Repr

/-- Source `saveCacheState()`: `cacheMemento.saveState(cacheCells)`. -/
def saveCacheState (g : GameState) : GameState :=
  { g with saved := g.store }

/-- Source `handleCollectCoins()` for the popup bound to the cache at key `k`
(the `cell` captured by the popup is the live store entry): if the
cache has coins,
move them all to the player, add the point value, zero the cache, and
save (`MementoSaveGameState` → `saveCacheState`). -/
def handleCollectCoins (g : GameState) (k : String) : GameState :=
  match Store.get? g.store k with
  | none => g
  | some cell =>
    if cell.coins.length > 0 then
      let store2 := Store.set g.store k ⟨[], 0⟩
      { g with
        playerCoins := g.playerCoins ++ cell.coins
        playerPoints := g.playerPoints + cell.pointValue
        store := store2
        saved := store2 }
    else g

/-- Source `handleDepositCoins()` for the popup bound to the cache at key `k`:
if the player holds coins, append them all to the cache, clear the
inventory, and save. -/
def handleDepositCoins (g : GameState) (k : String) : GameState :=
  match Store.get? g.store k with
  | none => g
  | some cell =>
    if g.playerCoins.length > 0 then
      let store2 := Store.set g.store k ⟨cell.coins ++ g.playerCoins, cell.pointValue⟩
      { g with
        playerCoins := []
        store := store2
        saved := store2 }
    else g

/-- Source `regenerateCaches()`: compute the center cell from the player
location and call `renderCaches`, whose trailing `saveCacheState()`
commits the rebuilt store as the new snapshot. Note: the `main.ts`
body performs no snapshot restore. -/
def regenerateCaches (oracle : Oracle) (g : GameState) : GameState :=
  let c := toGlobalCoords g.playerLat g.playerLng
  let store2 := renderCaches oracle g.store c.1 c.2
  { g with store := store2, saved := store2 }

/-- Source `movePlayer(latOffset, lngOffset)`: shift the player location, then
`regenerateCaches()` and `MementoSaveGameState()`. -/
def movePlayer (oracle : Oracle) (g : GameState) (latOffset lngOffset : ℚ) : GameState :=
  saveCacheState
    (regenerateCaches oracle
      { g with
        playerLat := g.playerLat + latOffset
        playerLng := g.playerLng + lngOffset })

/-- A player transaction: a click on a collect or deposit button. -/
inductive PlayerOp where
  | collect (k : String)
  | deposit (k : String)
deriving DecidableEq, Repr

/-- Apply one transaction. -/
def applyOp (g : GameState) : PlayerOp → GameState
  | .collect k => handleCollectCoins g k
  | .deposit k => handleDepositCoins g k

/-- Apply a sequence of transactions, oldest first. -/
def applyOps (g : GameState) (ops : List PlayerOp) : GameState :=
  ops.foldl applyOp g

/-- The multiset of coins sitting in the caches of a store. -/
def storeCoins : Store → Multiset Coin
  | [] => 0
  | p :: rest => (p.2.coins : Multiset Coin) + storeCoins rest

/-- The multiset of coin identities across all caches and the player
inventory. -/
def allCoins (g : GameState) : Multiset Coin :=
  storeCoins g.store + (g.playerCoins : Multiset Coin)

/-! Reference-level model of the memento

`createCacheMemento` copies the map with `new Map(cacheCells)`: the
entries (key → reference to a `Cache` object) are copied, but the
`Cache` objects themselves are shared.  To reason about that sharing,
the following model makes the JS heap explicit: `Cache` objects live in
`heap`, addressed by numeric references, and both the live `cacheCells`
map and the `savedState` map of the memento associate keys to
references. -/

/-- Heap lookup by object reference. -/
def heapGet (h : List (Nat × Cache)) (r : Nat) : Option Cache :=
  match h with
  | [] => none
  | p :: rest => if p.1 = r then some p.2 else heapGet rest r

/-- In-place heap update of the object at reference `r`. -/
def heapSet (h : List (Nat × Cache)) (r : Nat) (c : Cache) : List (Nat × Cache) :=
  match h with
  | [] => []
  | p :: rest => if p.1 = r then (r, c) :: rest else p :: heapSet rest r c

/-- `Map.get` on a key→reference map. -/
def refGet (m : List (String × Nat)) (k : String) : Option Nat :=
  match m with
  | [] => none
  | p :: rest => if p.1 = k then some p.2 else refGet rest k

/-- The module state of `main.ts` with the heap made explicit. -/
structure HeapState where
  heap : List (Nat × Cache)
  cacheCells : List (String × Nat)
  savedState : List (String × Nat)
  playerCoins : List Coin
  playerPoints : Int
deriving DecidableEq, Repr

/-- Source `saveState(cacheCells) { savedState = new Map(cacheCells); }` — the
entry list is copied, the referenced `Cache` objects are shared. -/
def mementoSaveState (s : HeapState) : HeapState :=
  { s with savedState := s.cacheCells }

/-- Source `restoreState() { return new Map(savedState); }` — again a copy of
the entries only, sharing the referenced `Cache` objects. -/
def mementoRestoreState (s : HeapState) : List (String × Nat) :=
  s.savedState

/-- The contents a caller observes when reading a key→reference map
through the heap. -/
def mapContents (h : List (Nat × Cache)) (m : List (String × Nat)) :
    List (String × Option Cache) :=
  m.map (fun p => (p.1, heapGet h p.2))

/-- The collect handler in the heap model: the `cell` captured by the popup is the
live `Cache` object, so `cell.coins = []; cell.pointValue = 0` mutates
it in place on the heap; the trailing `MementoSaveGameState()` re-runs
`saveState`. -/
def collectOnHeap (s : HeapState) (k : String) : HeapState :=
  match refGet s.cacheCells k with
  | none => s
  | some r =>
    match heapGet s.heap r with
    | none => s
    | some cell =>
      if cell.coins.length > 0 then
        { s with
          playerCoins := s.playerCoins ++ cell.coins
          playerPoints := s.playerPoints + cell.pointValue
          heap := heapSet s.heap r ⟨[], 0⟩
          savedState := s.cacheCells }
      else s

/-! Concrete witness data -/

/-- A constant oracle whose value `1/2` is at or above
`CACHE_SPAWN_PROBABILITY` everywhere (no cell ever spawns). -/
def halfOracle : Oracle := fun _ => mkRat 1 2

/-- The Scenario A oracle stub of §8 of the spec:
`oracle(key(0,0,"seed")) = 0.05`, `oracle(key(0,0,"coins")) = 0.35`,
`oracle(key(0,0,"initialValue")) = 0.05`. -/
def scenarioAOracle : Oracle := fun k =>
  if k = "0,0,seed" then mkRat 1 20
  else if k = "0,0,coins" then mkRat 7 20
  else if k = "0,0,initialValue" then mkRat 1 20
  else mkRat 1 2

/-- The Scenario A cache: four coins with origin `(0,0)`, serials 0–3,
point value 1. -/
def scenarioACache : Cache :=
  ⟨[⟨0, 0, 0⟩, ⟨0, 0, 1⟩, ⟨0, 0, 2⟩, ⟨0, 0, 3⟩], 1⟩

/-- A game state holding exactly the Scenario A cache at `"0:0"`. -/
def scenarioBState : GameState :=
  { store := [("0:0", scenarioACache)]
    saved := [("0:0", scenarioACache)]
    playerCoins := []
    playerPoints := 0
    playerLat := 0
    playerLng := 0 }

/-- A store whose cell `"0:0"` holds a previously emptied cache. -/
def emptiedStore : Store := [("0:0", ⟨[], 0⟩)]

/-- A game state (Scenario C) whose only cache has been emptied. -/
def emptiedState : GameState :=
  { store := emptiedStore
    saved := emptiedStore
    playerCoins := []
    playerPoints := 0
    playerLat := 0
    playerLng := 0 }

/-- A game state whose committed snapshot holds a cache at `"100:100"`
that the live store does not have. -/
def staleSnapshotState : GameState :=
  { store := []
    saved := [("100:100", ⟨[⟨100, 100, 0⟩], 3⟩)]
    playerCoins := []
    playerPoints := 0
    playerLat := 0
    playerLng := 0 }

/-- A game state where the player holds two coins and five points, and
cell `"0:0"` holds a one-coin cache of point value 2. -/
def depositState : GameState :=
  { store := [("0:0", ⟨[⟨0, 0, 0⟩], 2⟩)]
    saved := [("0:0", ⟨[⟨0, 0, 0⟩], 2⟩)]
    playerCoins := [⟨0, 0, 1⟩, ⟨0, 0, 2⟩]
    playerPoints := 5
    playerLat := 0
    playerLng := 0 }

/-- A heap state with one live cache object (one coin, point value 1) at
key `"0:0"` and nothing captured yet. -/
def aliasedHeapState : HeapState :=
  { heap := [(0, ⟨[⟨0, 0, 0⟩], 1⟩)]
    cacheCells := [("0:0", 0)]
    savedState := []
    playerCoins := []
    playerPoints := 0 }

/-! Basic store lemmas -/

theorem TILE_DEGREES_eq : TILE_DEGREES = 1/10000 := by
  rw [TILE_DEGREES, Rat.mkRat_eq_div]; norm_num

theorem CACHE_SPAWN_PROBABILITY_eq : CACHE_SPAWN_PROBABILITY = 1/10 := by
  rw [CACHE_SPAWN_PROBABILITY, Rat.mkRat_eq_div]; norm_num

theorem Store.get?_set_self (s : Store) (k : String) (c : Cache) :
    Store.get? (Store.set s k c) k = some c := by
  induction s with
  | nil => simp [Store.set, Store.get?]
  | cons p rest ih =>
    by_cases h : p.1 = k
    · simp [Store.set, Store.get?, h]
    · simp [Store.set, Store.get?, h, ih]

theorem Store.get?_set_ne (s : Store) (k k2 : String) (c : Cache) (h : k2 ≠ k) :
    Store.get? (Store.set s k c) k2 = Store.get? s k2 := by
  induction s with
  | nil => simp [Store.set, Store.get?, Ne.symm h]
  | cons p rest ih =>
    by_cases hp : p.1 = k
    · subst hp
      simp [Store.set, Store.get?, Ne.symm h]
    · by_cases hp2 : p.1 = k2
      · simp [Store.set, Store.get?, hp, hp2, h]
      · simp [Store.set, Store.get?, hp, hp2, ih]

theorem Store.get?_eq_none_of_hasKey_false (s : Store) (k : String)
    (h : Store.hasKey s k = false) : Store.get? s k = none := by
  rw [Store.hasKey] at h
  exact Option.not_isSome_iff_eq_none.mp (by simp [h])

/-- `spawnCache` on a present key does not touch the store at all. -/
theorem spawnCache_of_hasKey (oracle : Oracle) (store : Store) (i j : Int)
    (h : Store.hasKey store (cellKey i j) = true) :
    spawnCache oracle store i j = store := by
  simp [spawnCache, h]

/-- `spawnCache` preserves every existing store entry unchanged. -/
theorem spawnCache_preserves (oracle : Oracle) (store : Store) (i j : Int)
    (k : String) (c : Cache) (h : Store.get? store k = some c) :
    Store.get? (spawnCache oracle store i j) k = some c := by
  by_cases hk : Store.hasKey store (cellKey i j)
  · rw [spawnCache_of_hasKey oracle store i j hk]; exact h
  · have hne : k ≠ cellKey i j := by
      intro heq
      rw [heq] at h
      rw [Store.get?_eq_none_of_hasKey_false store (cellKey i j)
        (Bool.not_eq_true _ ▸ (by simpa using hk))] at h
      exact Option.noConfusion h
    simp only [spawnCache, Bool.not_eq_true] at hk ⊢
    rw [hk]
    simp only [Bool.false_eq_true, if_false]
    rw [Store.get?_set_ne _ _ _ _ hne]
    exact h

/-- Each cell step of the `renderCaches` window loop preserves existing
entries. -/
theorem renderCell_preserves (oracle : Oracle) (store : Store) (i j : Int)
    (k : String) (c : Cache) (h : Store.get? store k = some c) :
    Store.get? (renderCell oracle store i j) k = some c := by
  rw [renderCell]
  split
  · exact spawnCache_preserves oracle store i j k c h
  · split
    · exact spawnCache_preserves oracle store i j k c h
    · exact h

/-- Folding a step function that preserves a property preserves it. -/
theorem foldl_preserve {α β : Type} (P : β → Prop) (f : β → α → β)
    (hstep : ∀ st x, P st → P (f st x)) :
    ∀ (l : List α) (st : β), P st → P (l.foldl f st) := by
  intro l
  induction l with
  | nil => intro st h; exact h
  | cons x xs ih => intro st h; exact ih (f st x) (hstep st x h)

/-- `renderCaches` preserves every existing store entry unchanged. -/
theorem renderCaches_preserves (oracle : Oracle) (store : Store)
    (centerI centerJ : Int) (k : String) (c : Cache)
    (h : Store.get? store k = some c) :
    Store.get? (renderCaches oracle store centerI centerJ) k = some c := by
  rw [renderCaches]
  refine foldl_preserve (fun st => Store.get? st k = some c) _ ?_ windowOffsets store h
  intro st latOffset hst
  refine foldl_preserve (fun st2 => Store.get? st2 k = some c) _ ?_ windowOffsets st hst
  intro st2 lngOffset hst2
  exact renderCell_preserves oracle st2 _ _ k c hst2

/-! Claim C1 -/

/-- Claim C1: a cell key present in the cache store is permanent.  A
`spawnCache`/getOrCreate call on a present cell leaves the store
untouched (no re-generation, no overwrite); both `spawnCache` and a full
`renderCaches` regeneration cycle (which performs no collect/deposit)
preserve every existing entry — its coins and point value — unchanged,
so a previously emptied cache still reads `{coins: [], pointValue: 0}`
after the player moves. -/
theorem cacheStore_permanent (oracle : Oracle) (store : Store) (k : String)
    (c : Cache) (h : Store.get? store k = some c) :
    (∀ i j, Store.hasKey store (cellKey i j) = true →
      spawnCache oracle store i j = store) ∧
    (∀ i j, Store.get? (spawnCache oracle store i j) k = some c) ∧
    (∀ centerI centerJ,
      Store.get? (renderCaches oracle store centerI centerJ) k = some c) :=
  ⟨fun i j hk => spawnCache_of_hasKey oracle store i j hk,
   fun i j => spawnCache_preserves oracle store i j k c h,
   fun ci cj => renderCaches_preserves oracle store ci cj k c h⟩

/-- Witness for C1: the emptied cache at `"0:0"` still reads
`{coins: [], pointValue: 0}` after a whole regeneration pass. -/
theorem cacheStore_permanent_witness :
    Store.get? (renderCaches halfOracle emptiedStore 0 0) ("0:0") =
      some ⟨[], 0⟩ :=
  (cacheStore_permanent halfOracle emptiedStore ("0:0") ⟨[], 0⟩
    (by decide)).2.2 0 0

/-! Claim C9 -/

/-- Claim C9: `toGlobalCoords` floors each coordinate divided by
`TILE_DEGREES = 1e-4`; `centerOnCache` maps a cell back to its
lower-left corner `(i * TILE_DEGREES, j * TILE_DEGREES)`; and the two
are exact inverses at cell granularity for all integer cells. -/
theorem grid_roundtrip :
    (∀ lat lng : ℚ, toGlobalCoords lat lng =
      (⌊lat / TILE_DEGREES⌋, ⌊lng / TILE_DEGREES⌋)) ∧
    TILE_DEGREES = 1/10000 ∧
    (∀ i j : Int, centerOnCache i j =
      ((i : ℚ) * TILE_DEGREES, (j : ℚ) * TILE_DEGREES)) ∧
    ∀ i j : Int,
      toGlobalCoords (centerOnCache i j).1 (centerOnCache i j).2 = (i, j) := by
  have hT : TILE_DEGREES ≠ 0 := by rw [TILE_DEGREES_eq]; norm_num
  refine ⟨fun lat lng => rfl, TILE_DEGREES_eq, fun i j => rfl, fun i j => ?_⟩
  show (⌊(i : ℚ) * TILE_DEGREES / TILE_DEGREES⌋,
        ⌊(j : ℚ) * TILE_DEGREES / TILE_DEGREES⌋) = (i, j)
  rw [mul_div_cancel_right₀ _ hT, mul_div_cancel_right₀ _ hT,
    Int.floor_intCast, Int.floor_intCast]

/-! Claim C10 -/

/-- Claim C10: on a cell whose key is absent from the store,
`spawnCache` unconditionally materializes a cache — it never consults
the `"seed"` oracle (its result only depends on the oracle values at
the `"coins"` and `"initialValue"` keys), so a direct call inserts a
cache even where `oracle(key(i,j,"seed")) ≥ 0.1`; the spawn-probability
decision lives only in the `renderCaches` window loop. -/
theorem spawn_unconditional (oracle : Oracle) (store : Store) (i j : Int)
    (habs : Store.hasKey store (cellKey i j) = false) :
    Store.hasKey (spawnCache oracle store i j) (cellKey i j) = true ∧
    ∀ oracle2 : Oracle,
      oracle2 (luckKey i j ("coins")) = oracle (luckKey i j ("coins")) →
      oracle2 (luckKey i j ("initialValue")) =
        oracle (luckKey i j ("initialValue")) →
      spawnCache oracle2 store i j = spawnCache oracle store i j := by
  constructor
  · have h2 : Store.get? store (cellKey i j) = none :=
      Store.get?_eq_none_of_hasKey_false store (cellKey i j) habs
    simp only [spawnCache, Store.hasKey, h2, Option.isSome_none,
      Bool.false_eq_true, if_false]
    rw [Store.get?_set_self]
    rfl
  · intro oracle2 hc hv
    simp only [spawnCache, cacheCoinCount, cachePointValue, hc, hv]

/-- Witness for C10: with the constant oracle `1/2` — at or above the
spawn threshold — a direct `spawnCache` call still inserts the cache. -/
theorem spawn_unconditional_witness :
    CACHE_SPAWN_PROBABILITY ≤ halfOracle (luckKey 0 0 ("seed")) ∧
    Store.hasKey (spawnCache halfOracle [] 0 0) (cellKey 0 0) = true :=
  ⟨by decide, (spawn_unconditional halfOracle [] 0 0 (by decide)).1⟩

/-! Claim C5 -/

/-- Claim C5: collecting from a cache with a non-empty coin list moves
all of its coins (in order) into the player inventory, adds the prior
point value of the cache to the player points, leaves the cache exactly
`{coins: [], pointValue: 0}` and touches no other cell; collecting from
a cache with an empty coin list is a complete no-op. -/
theorem collect_spec (g : GameState) (k : String) (cell : Cache)
    (h : Store.get? g.store k = some cell) :
    (cell.coins ≠ [] →
      (handleCollectCoins g k).playerPoints =
        g.playerPoints + cell.pointValue ∧
      (handleCollectCoins g k).playerCoins = g.playerCoins ++ cell.coins ∧
      Store.get? (handleCollectCoins g k).store k = some ⟨[], 0⟩ ∧
      ∀ k2, k2 ≠ k →
        Store.get? (handleCollectCoins g k).store k2 = Store.get? g.store k2) ∧
    (cell.coins = [] → handleCollectCoins g k = g) := by
  constructor
  · intro hne
    have hlen : 0 < cell.coins.length := List.length_pos.mpr hne
    have heq : handleCollectCoins g k =
        { g with
          playerCoins := g.playerCoins ++ cell.coins
          playerPoints := g.playerPoints + cell.pointValue
          store := Store.set g.store k ⟨[], 0⟩
          saved := Store.set g.store k ⟨[], 0⟩ } := by
      simp only [handleCollectCoins]
      rw [h]
      simp only [gt_iff_lt, hlen, if_true]
    rw [heq]
    exact ⟨rfl, rfl, Store.get?_set_self g.store k ⟨[], 0⟩,
      fun k2 hk2 => Store.get?_set_ne g.store k k2 ⟨[], 0⟩ hk2⟩
  · intro hemp
    simp only [handleCollectCoins]
    rw [h]
    simp [hemp]

/-- Witness for C5, Scenario B: collecting the Scenario A 4-coin,
pointValue-1 cache yields one point, the four coins in the inventory,
and an emptied cache. -/
theorem collect_spec_witness :
    (handleCollectCoins scenarioBState ("0:0")).playerPoints = 0 + 1 ∧
    (handleCollectCoins scenarioBState ("0:0")).playerCoins =
      [] ++ [⟨0, 0, 0⟩, ⟨0, 0, 1⟩, ⟨0, 0, 2⟩, ⟨0, 0, 3⟩] ∧
    Store.get? (handleCollectCoins scenarioBState ("0:0")).store ("0:0") =
      some ⟨[], 0⟩ := by
  have h := (collect_spec scenarioBState ("0:0") scenarioACache
    (by decide)).1 (by decide)
  exact ⟨h.1, h.2.1, h.2.2.1⟩

/-! Claim C8 -/

/-- Claim C8: depositing with a non-empty inventory appends the entire
inventory, in order, to the coin list of the cache, clears the
inventory, changes neither the cache point value nor the player points,
and
touches no other cell; depositing with an empty inventory is a complete
no-op. -/
theorem deposit_spec (g : GameState) (k : String) (cell : Cache)
    (h : Store.get? g.store k = some cell) :
    (g.playerCoins ≠ [] →
      Store.get? (handleDepositCoins g k).store k =
        some ⟨cell.coins ++ g.playerCoins, cell.pointValue⟩ ∧
      (handleDepositCoins g k).playerCoins = [] ∧
      (handleDepositCoins g k).playerPoints = g.playerPoints ∧
      ∀ k2, k2 ≠ k →
        Store.get? (handleDepositCoins g k).store k2 = Store.get? g.store k2) ∧
    (g.playerCoins = [] → handleDepositCoins g k = g) := by
  constructor
  · intro hne
    have hlen : 0 < g.playerCoins.length := List.length_pos.mpr hne
    have heq : handleDepositCoins g k =
        { g with
          playerCoins := []
          store := Store.set g.store k ⟨cell.coins ++ g.playerCoins, cell.pointValue⟩
          saved := Store.set g.store k ⟨cell.coins ++ g.playerCoins, cell.pointValue⟩ } := by
      simp only [handleDepositCoins]
      rw [h]
      simp only [gt_iff_lt, hlen, if_true]
    rw [heq]
    exact ⟨Store.get?_set_self g.store k _, rfl, rfl,
      fun k2 hk2 => Store.get?_set_ne g.store k k2 _ hk2⟩
  · intro hemp
    simp only [handleDepositCoins]
    rw [h]
    simp [hemp]

/-- Witness for C8: depositing a two-coin inventory into the one-coin,
pointValue-2 cache at `"0:0"`. -/
theorem deposit_spec_witness :
    Store.get? (handleDepositCoins depositState ("0:0")).store ("0:0") =
      some ⟨[⟨0, 0, 0⟩] ++ [⟨0, 0, 1⟩, ⟨0, 0, 2⟩], 2⟩ ∧
    (handleDepositCoins depositState ("0:0")).playerCoins = [] ∧
    (handleDepositCoins depositState ("0:0")).playerPoints = 5 := by
  have h := (deposit_spec depositState ("0:0") ⟨[⟨0, 0, 0⟩], 2⟩
    (by decide)).1 (by decide)
  exact ⟨h.1, h.2.1, h.2.2.1⟩

/-! Claim C4 -/

theorem storeCoins_set (s : Store) (k : String) (c cell : Cache)
    (h : Store.get? s k = some cell) :
    storeCoins (Store.set s k c) + (cell.coins : Multiset Coin)
      = storeCoins s + (c.coins : Multiset Coin) := by
  induction s with
  | nil => simp [Store.get?] at h
  | cons p rest ih =>
    by_cases hp : p.1 = k
    · rw [Store.get?, if_pos hp] at h
      have hcell : p.2 = cell := by injection h
      subst hcell
      simp only [Store.set, if_pos hp, storeCoins]
      abel
    · rw [Store.get?, if_neg hp] at h
      simp only [Store.set, if_neg hp, storeCoins]
      rw [add_assoc, add_assoc, ih h]

theorem allCoins_applyOp (g : GameState) (op : PlayerOp) :
    allCoins (applyOp g op) = allCoins g := by
  cases op with
  | collect k =>
    show allCoins (handleCollectCoins g k) = allCoins g
    cases hm : Store.get? g.store k with
    | none => simp [handleCollectCoins, hm]
    | some cell =>
      by_cases hlen : 0 < cell.coins.length
      · have heq : handleCollectCoins g k =
            { g with
              playerCoins := g.playerCoins ++ cell.coins
              playerPoints := g.playerPoints + cell.pointValue
              store := Store.set g.store k ⟨[], 0⟩
              saved := Store.set g.store k ⟨[], 0⟩ } := by
          simp only [handleCollectCoins]
          rw [hm]
          simp only [gt_iff_lt, hlen, if_true]
        rw [heq]
        simp only [allCoins]
        rw [← Multiset.coe_add]
        have hs := storeCoins_set g.store k ⟨[], 0⟩ cell hm
        simp only [Multiset.coe_nil, add_zero] at hs
        rw [← hs]
        abel
      · have hemp : cell.coins = [] := by
          cases hc : cell.coins with
          | nil => rfl
          | cons x xs => rw [hc] at hlen; simp at hlen
        simp only [handleCollectCoins]
        rw [hm]
        simp [hemp]
  | deposit k =>
    show allCoins (handleDepositCoins g k) = allCoins g
    cases hm : Store.get? g.store k with
    | none => simp [handleDepositCoins, hm]
    | some cell =>
      by_cases hlen : 0 < g.playerCoins.length
      · have heq : handleDepositCoins g k =
            { g with
              playerCoins := []
              store := Store.set g.store k ⟨cell.coins ++ g.playerCoins, cell.pointValue⟩
              saved := Store.set g.store k ⟨cell.coins ++ g.playerCoins, cell.pointValue⟩ } := by
          simp only [handleDepositCoins]
          rw [hm]
          simp only [gt_iff_lt, hlen, if_true]
        rw [heq]
        have hs := storeCoins_set g.store k
          ⟨cell.coins ++ g.playerCoins, cell.pointValue⟩ cell hm
        rw [← Multiset.coe_add] at hs
        have h2 : storeCoins (Store.set g.store k
              ⟨cell.coins ++ g.playerCoins, cell.pointValue⟩)
              + (cell.coins : Multiset Coin)
            = (storeCoins g.store + (g.playerCoins : Multiset Coin))
              + (cell.coins : Multiset Coin) := by
          rw [hs]; abel
        have h3 := add_right_cancel h2
        simp only [allCoins, h3, Multiset.coe_nil, add_zero]
      · have hemp : g.playerCoins = [] := by
          cases hc : g.playerCoins with
          | nil => rfl
          | cons x xs => rw [hc] at hlen; simp at hlen
        simp only [handleDepositCoins]
        rw [hm]
        simp [hemp]

/-- Claim C4: for every state and every sequence of collect/deposit
transactions, the multiset of coin identities across all caches in the
store together with the player inventory is invariant — no coin is
duplicated, lost, or has its identity reassigned. -/
theorem coin_conservation (g : GameState) (ops : List PlayerOp) :
    allCoins (applyOps g ops) = allCoins g := by
  induction ops generalizing g with
  | nil => rfl
  | cons op rest ih =>
    have hstep : applyOps g (op :: rest) = applyOps (applyOp g op) rest := rfl
    rw [hstep, ih (applyOp g op), allCoins_applyOp]

/-! Claim C6 -/

/-- Claim C6: for a cell decided to contain a cache, the generated
contents are `coinCount = ⌊oracle(key(i,j,"coins")) * 10⌋ + 1` coins
(the form `⌊x*10 + 1⌋` in the source is the same number) with origin `(i,j)` and
serials `0..coinCount-1`, and
`pointValue = ⌊oracle(key(i,j,"initialValue")) * 10⌋ + 1`; both are in
the range 1–10 whenever the oracle values lie in `[0,1)`. -/
theorem spawn_contents (oracle : Oracle) (store : Store) (i j : Int)
    (habs : Store.hasKey store (cellKey i j) = false)
    (hc0 : 0 ≤ oracle (luckKey i j ("coins")))
    (hc1 : oracle (luckKey i j ("coins")) < 1)
    (hv0 : 0 ≤ oracle (luckKey i j ("initialValue")))
    (hv1 : oracle (luckKey i j ("initialValue")) < 1) :
    Store.get? (spawnCache oracle store i j) (cellKey i j) =
      some ⟨mkCoins i j (⌊oracle (luckKey i j ("coins")) * 10⌋ + 1).toNat,
            ⌊oracle (luckKey i j ("initialValue")) * 10⌋ + 1⟩ ∧
    (∀ n : Nat, n < (⌊oracle (luckKey i j ("coins")) * 10⌋ + 1).toNat →
      (mkCoins i j (⌊oracle (luckKey i j ("coins")) * 10⌋ + 1).toNat)[n]? =
        some ⟨i, j, n⟩) ∧
    1 ≤ ⌊oracle (luckKey i j ("coins")) * 10⌋ + 1 ∧
    ⌊oracle (luckKey i j ("coins")) * 10⌋ + 1 ≤ 10 ∧
    1 ≤ ⌊oracle (luckKey i j ("initialValue")) * 10⌋ + 1 ∧
    ⌊oracle (luckKey i j ("initialValue")) * 10⌋ + 1 ≤ 10 := by
  have hcc : cacheCoinCount oracle i j =
      ⌊oracle (luckKey i j ("coins")) * 10⌋ + 1 := by
    rw [cacheCoinCount, Int.floor_add_one]
  have hpv : cachePointValue oracle i j =
      ⌊oracle (luckKey i j ("initialValue")) * 10⌋ + 1 := by
    rw [cachePointValue, Int.floor_add_one]
  have h2 : Store.get? store (cellKey i j) = none :=
    Store.get?_eq_none_of_hasKey_false store (cellKey i j) habs
  refine ⟨?_, ?_, ?_, ?_, ?_, ?_⟩
  · simp only [spawnCache, Store.hasKey, h2, Option.isSome_none,
      Bool.false_eq_true, if_false, hcc, hpv]
    exact Store.get?_set_self store (cellKey i j) _
  · intro n hn
    rw [mkCoins, List.getElem?_map, List.getElem?_range hn]
    rfl
  · have : (0 : Int) ≤ ⌊oracle (luckKey i j ("coins")) * 10⌋ :=
      Int.floor_nonneg.mpr (by positivity)
    omega
  · have : ⌊oracle (luckKey i j ("coins")) * 10⌋ < 10 :=
      Int.floor_lt.mpr (by push_cast; linarith)
    omega
  · have : (0 : Int) ≤ ⌊oracle (luckKey i j ("initialValue")) * 10⌋ :=
      Int.floor_nonneg.mpr (by positivity)
    omega
  · have : ⌊oracle (luckKey i j ("initialValue")) * 10⌋ < 10 :=
      Int.floor_lt.mpr (by push_cast; linarith)
    omega

/-- Witness for C6, Scenario A: with the stub oracle, the cache at
`"0:0"` holds exactly the coins `(0,0,0) … (0,0,3)` and point value 1. -/
theorem spawn_contents_witness :
    Store.get? (spawnCache scenarioAOracle [] 0 0) (cellKey 0 0) =
      some ⟨[⟨0, 0, 0⟩, ⟨0, 0, 1⟩, ⟨0, 0, 2⟩, ⟨0, 0, 3⟩], 1⟩ := by
  have h := (spawn_contents scenarioAOracle [] 0 0 (by decide)
    (by decide) (by decide) (by decide) (by decide)).1
  have e1 : scenarioAOracle (luckKey 0 0 ("coins")) = mkRat 7 20 := by decide
  have e2 : scenarioAOracle (luckKey 0 0 ("initialValue")) = mkRat 1 20 := by
    decide
  rw [e1, e2] at h
  have h3 : (⌊(mkRat 7 20 : ℚ) * 10⌋ + 1).toNat = 4 := by
    have e : (mkRat 7 20 : ℚ) * 10 = 7/2 := by
      rw [Rat.mkRat_eq_div]; norm_num
    rw [e]
    have hf : (⌊(7/2 : ℚ)⌋ : Int) = 3 := by
      rw [Int.floor_eq_iff]
      norm_num
    rw [hf]
    rfl
  have h4 : (⌊(mkRat 1 20 : ℚ) * 10⌋ + 1) = 1 := by
    have e : (mkRat 1 20 : ℚ) * 10 = 1/2 := by
      rw [Rat.mkRat_eq_div]; norm_num
    rw [e]
    have hf : (⌊(1/2 : ℚ)⌋ : Int) = 0 := by
      rw [Int.floor_eq_iff]
      norm_num
    rw [hf]
    rfl
  rw [h3, h4] at h
  rw [h]
  decide

/-! String-key injectivity (for C7)

`renderCaches` skips a cell by leaving its key out of the map, so the
claim that a key "never appears" needs that no *other* window cell can
produce the same `"i:j"` key string.  Decimal renderings of integers
contain no `':'`, which makes `cellKey` injective enough. -/

theorem digitChar_ne_colon : ∀ m : Nat, m < 10 → Nat.digitChar m ≠ ':' := by
  decide

theorem mem_toDigitsCore_ten (fuel : Nat) :
    ∀ (n : Nat) (ds : List Char) (c : Char),
      c ∈ Nat.toDigitsCore 10 fuel n ds →
      c ∈ ds ∨ ∃ m : Nat, m < 10 ∧ c = Nat.digitChar m := by
  induction fuel with
  | zero =>
    intro n ds c h
    exact Or.inl h
  | succ fuel ih =>
    intro n ds c h
    simp only [Nat.toDigitsCore] at h
    split at h
    · rcases List.mem_cons.mp h with hc | hc
      · exact Or.inr ⟨n % 10, Nat.mod_lt _ (by norm_num), hc⟩
      · exact Or.inl hc
    · rcases ih _ _ _ h with hc | hc
      · rcases List.mem_cons.mp hc with hc2 | hc2
        · exact Or.inr ⟨n % 10, Nat.mod_lt _ (by norm_num), hc2⟩
        · exact Or.inl hc2
      · exact Or.inr hc

theorem colon_not_mem_natRepr (n : Nat) : ':' ∉ (Nat.repr n).data := by
  intro h
  have h2 : ':' ∈ Nat.toDigitsCore 10 (n + 1) n [] := h
  rcases mem_toDigitsCore_ten (n + 1) n [] ':' h2 with hc | ⟨m, hm, hc⟩
  · exact absurd hc (by decide)
  · exact digitChar_ne_colon m hm hc.symm

theorem colon_not_mem_toString_int (i : Int) : ':' ∉ (toString i).data := by
  cases i with
  | ofNat m => exact colon_not_mem_natRepr m
  | negSucc m =>
    show ':' ∉ ("-" ++ toString (m + 1)).data
    rw [String.data_append]
    intro h
    rcases List.mem_append.mp h with hc | hc
    · exact absurd hc (by decide)
    · exact colon_not_mem_natRepr (m + 1) hc

theorem append_cons_colon_inj :
    ∀ (a c b d : List Char), ':' ∉ a → ':' ∉ c →
      a ++ ':' :: b = c ++ ':' :: d → a = c ∧ b = d := by
  intro a
  induction a with
  | nil =>
    intro c b d _ hc h
    cases c with
    | nil => simpa using h
    | cons x xs =>
      rw [List.nil_append, List.cons_append] at h
      injection h with h1 h2
      subst h1
      exact absurd (List.mem_cons_self _ _) hc
  | cons x xs ih =>
    intro c b d ha hc h
    cases c with
    | nil =>
      rw [List.cons_append, List.nil_append] at h
      injection h with h1 h2
      subst h1
      exact absurd (List.mem_cons_self _ _) ha
    | cons y ys =>
      rw [List.cons_append, List.cons_append] at h
      injection h with h1 h2
      subst h1
      have ha2 : ':' ∉ xs := fun hm => ha (List.mem_cons_of_mem _ hm)
      have hc2 : ':' ∉ ys := fun hm => hc (List.mem_cons_of_mem _ hm)
      obtain ⟨e1, e2⟩ := ih ys b d ha2 hc2 h2
      exact ⟨by rw [e1], e2⟩

theorem cellKey_inj_toString (a b c d : Int) (h : cellKey a b = cellKey c d) :
    toString a = toString c ∧ toString b = toString d := by
  have hd := congrArg String.data h
  simp only [cellKey, String.data_append, List.append_assoc,
    List.singleton_append] at hd
  obtain ⟨e1, e2⟩ := append_cons_colon_inj (toString a).data (toString c).data
    (toString b).data (toString d).data
    (colon_not_mem_toString_int a) (colon_not_mem_toString_int c) hd
  exact ⟨String.ext e1, String.ext e2⟩

theorem luckKey_congr (a b c d : Int) (s : String)
    (h : cellKey a b = cellKey c d) : luckKey a b s = luckKey c d s := by
  obtain ⟨h1, h2⟩ := cellKey_inj_toString a b c d h
  rw [luckKey, luckKey, h1, h2]

/-! Claim C7 -/

theorem spawnCache_hasKey_other (oracle : Oracle) (st : Store) (i2 j2 : Int)
    (k : String) (hne : k ≠ cellKey i2 j2) :
    Store.hasKey (spawnCache oracle st i2 j2) k = Store.hasKey st k := by
  by_cases hk : Store.hasKey st (cellKey i2 j2) = true
  · rw [spawnCache_of_hasKey oracle st i2 j2 hk]
  · have h2 : Store.get? st (cellKey i2 j2) = none := by
      refine Store.get?_eq_none_of_hasKey_false st (cellKey i2 j2) ?_
      cases hb : Store.hasKey st (cellKey i2 j2)
      · rfl
      · exact absurd hb hk
    simp only [spawnCache, Store.hasKey, h2, Option.isSome_none,
      Bool.false_eq_true, if_false]
    rw [Store.get?_set_ne st (cellKey i2 j2) k _ hne]

theorem renderCell_no_spawn (oracle : Oracle) (st : Store) (i j i2 j2 : Int)
    (habs : Store.hasKey st (cellKey i j) = false)
    (hseed : CACHE_SPAWN_PROBABILITY ≤ oracle (luckKey i j ("seed"))) :
    Store.hasKey (renderCell oracle st i2 j2) (cellKey i j) = false := by
  rw [renderCell]
  by_cases hk : Store.hasKey st (cellKey i2 j2) = true
  · rw [if_pos hk, spawnCache_of_hasKey oracle st i2 j2 hk]
    exact habs
  · rw [if_neg hk]
    by_cases hlt : oracle (luckKey i2 j2 ("seed")) < CACHE_SPAWN_PROBABILITY
    · rw [if_pos hlt]
      have hne : cellKey i j ≠ cellKey i2 j2 := by
        intro he
        rw [luckKey_congr i j i2 j2 ("seed") he] at hseed
        exact absurd hlt (not_lt.mpr hseed)
      rw [spawnCache_hasKey_other oracle st i2 j2 (cellKey i j) hne]
      exact habs
    · rw [if_neg hlt]
      exact habs

/-- Claim C7: on a cell never previously materialized whose `"seed"`
oracle value is at or above `CACHE_SPAWN_PROBABILITY` (default 0.1), a
whole regeneration pass creates no cache: the key `"i:j"` still does not
appear anywhere in the cache store afterwards. -/
theorem no_spawn_at_or_above_threshold (oracle : Oracle) (store : Store)
    (i j centerI centerJ : Int)
    (habs : Store.hasKey store (cellKey i j) = false)
    (hseed : CACHE_SPAWN_PROBABILITY ≤ oracle (luckKey i j ("seed"))) :
    Store.hasKey (renderCaches oracle store centerI centerJ) (cellKey i j) =
      false := by
  rw [renderCaches]
  refine foldl_preserve (fun st => Store.hasKey st (cellKey i j) = false)
    _ ?_ windowOffsets store habs
  intro st latOffset hst
  refine foldl_preserve (fun st2 => Store.hasKey st2 (cellKey i j) = false)
    _ ?_ windowOffsets st hst
  intro st2 lngOffset hst2
  exact renderCell_no_spawn oracle st2 i j _ _ hst2 hseed

/-- Witness for C7: with the constant oracle `1/2 ≥ 0.1` and an empty
store, cell `(0,0)` is never created by the window pass centered on it. -/
theorem no_spawn_at_or_above_threshold_witness :
    Store.hasKey (renderCaches halfOracle [] 0 0) (cellKey 0 0) = false :=
  no_spawn_at_or_above_threshold halfOracle [] 0 0 0 0 (by decide) (by decide)

/-! Claim C2 -/

/-- Counterexample to C2: `saveState` copies the map with
`new Map(cacheCells)`, sharing the `Cache` objects.  After capturing,
`restoreState` reads `{coins: [(0,0,0)], pointValue: 1}` at `"0:0"`; the
collect mutation on the *live* store then changes what the *same*
subsequent restore returns, to `{coins: [], pointValue: 0}` — the
capture did not deep-copy the coin sequences. -/
theorem memento_shallow_counterexample :
    mapContents (mementoSaveState aliasedHeapState).heap
        (mementoRestoreState (mementoSaveState aliasedHeapState)) =
      [("0:0", some ⟨[⟨0, 0, 0⟩], 1⟩)] ∧
    mapContents (collectOnHeap (mementoSaveState aliasedHeapState) ("0:0")).heap
        (mementoRestoreState
          (collectOnHeap (mementoSaveState aliasedHeapState) ("0:0"))) =
      [("0:0", some ⟨[], 0⟩)] := by
  exact ⟨by decide, by decide⟩

/-- Amended C2: restoring right after capturing yields a table with the
same keys and — at capture time — the same cache contents and point
values as the live store; but the capture is shallow: the snapshot holds
the very same key→object references as the live `cacheCells` (and the
heap is untouched), so the `Cache` objects are shared rather than
deep-copied, and mutating a live cache changes what a later restore
returns. -/
theorem memento_restore_content_eq (s : HeapState) :
    mementoRestoreState (mementoSaveState s) = s.cacheCells ∧
    (mementoSaveState s).heap = s.heap ∧
    mapContents (mementoSaveState s).heap
        (mementoRestoreState (mementoSaveState s)) =
      mapContents s.heap s.cacheCells :=
  ⟨rfl, rfl, rfl⟩

/-! Claim C3 -/

set_option maxRecDepth 100000 in
/-- Counterexample to C3: `regenerateCaches` in `main.ts` performs no
restore-before-rebuild.  With the committed snapshot holding a cache at
`"100:100"` and the live store empty, the store after regeneration (and
the freshly committed snapshot, which is overwritten by step 5) lack
that key entirely — had the engine restored the snapshot before
iterating the window, the key would be present, since the window pass
never removes entries. -/
theorem regenerate_no_restore_counterexample :
    Store.hasKey staleSnapshotState.saved ("100:100") = true ∧
    Store.hasKey (regenerateCaches halfOracle staleSnapshotState).store
      ("100:100") = false ∧
    Store.hasKey (regenerateCaches halfOracle staleSnapshotState).saved
      ("100:100") = false := by
  have h0 : toGlobalCoords staleSnapshotState.playerLat
      staleSnapshotState.playerLng = (0, 0) := by
    show toGlobalCoords (0 : ℚ) (0 : ℚ) = (0, 0)
    simp [toGlobalCoords]
  have hmain : Store.hasKey (renderCaches halfOracle [] 0 0) ("100:100") =
      false := by decide
  have hre : (regenerateCaches halfOracle staleSnapshotState).store
      = renderCaches halfOracle staleSnapshotState.store 0 0 := by
    rw [regenerateCaches, h0]
  have hre2 : (regenerateCaches halfOracle staleSnapshotState).saved
      = renderCaches halfOracle staleSnapshotState.store 0 0 := by
    rw [regenerateCaches, h0]
  refine ⟨by decide, ?_, ?_⟩
  · rw [hre]
    exact hmain
  · rw [hre2]
    exact hmain

/-- Amended C3: `regenerateCaches` performs no snapshot restore at all —
its resulting store is entirely independent of the committed snapshot —
but it rebuilds from the live cache store, which is never torn down, so
every existing cache survives each regeneration cycle unchanged; the
engine then overwrites the snapshot with the rebuilt store. -/
theorem regenerate_rebuilds_from_live_store (oracle : Oracle) (g : GameState)
    (k : String) (c : Cache) (h : Store.get? g.store k = some c) :
    Store.get? (regenerateCaches oracle g).store k = some c ∧
    (∀ saved2 : Store,
      (regenerateCaches oracle { g with saved := saved2 }).store =
        (regenerateCaches oracle g).store) ∧
    (regenerateCaches oracle g).saved = (regenerateCaches oracle g).store := by
  refine ⟨?_, fun saved2 => ?_, ?_⟩
  · have hre : (regenerateCaches oracle g).store
        = renderCaches oracle g.store
          (toGlobalCoords g.playerLat g.playerLng).1
          (toGlobalCoords g.playerLat g.playerLng).2 := by
      rw [regenerateCaches]
    rw [hre]
    exact renderCaches_preserves oracle g.store
      (toGlobalCoords g.playerLat g.playerLng).1
      (toGlobalCoords g.playerLat g.playerLng).2 k c h
  · rw [regenerateCaches, regenerateCaches]
  · rw [regenerateCaches]

/-- Witness for the amended C3 at Scenario C: the emptied cache at
`"0:0"` still reads `{coins: [], pointValue: 0}` after a
`regenerateCaches` triggered by a location change. -/
theorem regenerate_rebuilds_from_live_store_witness :
    Store.get? (regenerateCaches halfOracle emptiedState).store ("0:0") =
      some ⟨[], 0⟩ :=
  (regenerate_rebuilds_from_live_store halfOracle emptiedState ("0:0")
    ⟨[], 0⟩ (by decide)).1

end Demo3
